import Mathlib

/-!
SVE wrapper functions of `pl/math/sv_math.h`

A shallow embedding of the wrappers of `sv_math.h` and of the ACLE intrinsics
they forward to.  The intrinsics come from `<arm_sve.h>`; they are written
here after the operation pseudocode of the Arm architecture manual
(`PFIRST`, `PNEXT`, `PTEST`, `CLASTB`, `SEL`, `DUP`, `FMLA`).

* A predicate register holds one flag per byte of the vector.  An element of
  `esz` bytes at index `e` is governed by flag `e * esz` (`ElemPredicate`).
* A data vector is the list of its lanes, lowest lane first.  The wrappers
  that only move lanes are written over an arbitrary lane type.
* The vector length is not fixed by the source; it is the parameter `VB`
  (vector length in bytes), so a vector has `VB / 8` 64-bit lanes and
  `VB / 4` 32-bit lanes and a predicate has `VB` flags.
-/

namespace SvMath

/-! ## Scalar types -/

/-- Type `f64_t` (`double`), carried as its IEEE binary64 bit pattern. -/
structure f64_t where
  bits : Fin (2 ^ 64)
deriving DecidableEq

/-- Type `u64_t` (`uint64_t`). -/
structure u64_t where
  bits : Fin (2 ^ 64)
deriving DecidableEq

/-- Type `s64_t` (`int64_t`), carried as its two's complement bit pattern. -/
structure s64_t where
  bits : Fin (2 ^ 64)
deriving DecidableEq

/-- Type `f32_t` (`float`), carried as its IEEE binary32 bit pattern. -/
structure f32_t where
  bits : Fin (2 ^ 32)
deriving DecidableEq

/-- Type `u32_t` (`uint32_t`). -/
structure u32_t where
  bits : Fin (2 ^ 32)
deriving DecidableEq

/-- Type `s32_t` (`int32_t`), carried as its two's complement bit pattern. -/
structure s32_t where
  bits : Fin (2 ^ 32)
deriving DecidableEq

/-! ## Vector and predicate registers -/

/-- Predicate register `svbool_t`: one flag per byte of the vector. -/
abbrev svbool_t := List Bool

abbrev sv_f64_t := List f64_t
abbrev sv_u64_t := List u64_t
abbrev sv_s64_t := List s64_t
abbrev sv_f32_t := List f32_t
abbrev sv_u32_t := List u32_t
abbrev sv_s32_t := List s32_t

/-- Pseudocode `ElemPredicate`: the flag that governs element `e` when elements
are `esz` bytes wide. -/
def ElemPredicate (esz : Nat) (p : svbool_t) (e : Nat) : Bool :=
  p.getD (e * esz) false

/-- Pseudocode `LastActiveElement`: scan elements `elements-1` down to `0` and
return the first one whose flag is set; `none` stands for `-1`. -/
def LastActiveElement (esz : Nat) (p : svbool_t) : Nat → Option Nat
  | 0 => none
  | e + 1 => if ElemPredicate esz p e then some e else LastActiveElement esz p e

/-! ## ACLE intrinsics -/

/-- Intrinsic `svpfalse`: no flag set. -/
def svpfalse (VB : Nat) : svbool_t :=
  List.replicate VB false

/-- Intrinsic `svpfirst` (`PFIRST`, byte granule): `op` with the flag of the
first active element of `pg` set; `op` itself when `pg` has none. -/
def svpfirst (pg op : svbool_t) : svbool_t :=
  match pg.findIdx? (fun b => b) with
  | some first => op.set first true
  | none => op

/-- Intrinsic `svptest_any` (`PTEST`): some flag of `op` is set where `pg` is
set. -/
def svptest_any (pg op : svbool_t) : Bool :=
  (List.zipWith (fun g b => g && b) pg op).any (fun b => b)

/-- The `while` of `PNEXT`: advance `next` while it is below `elements` and
element `next` of `pg` is inactive. -/
def pnextScan (esz : Nat) (pg : svbool_t) (elements : Nat) : Nat → Nat → Nat
  | 0, next => next
  | fuel + 1, next =>
    if next < elements && !(ElemPredicate esz pg next) then
      pnextScan esz pg elements fuel (next + 1)
    else next

/-- Instruction `PNEXT` at element size `esz`: the first active element of `pg`
after the last active element of `op`, as a predicate with that single flag
set; no flag set when there is none. -/
def svpnext_b (esz : Nat) (pg op : svbool_t) : svbool_t :=
  let elements := pg.length / esz
  let start :=
    match LastActiveElement esz op elements with
    | some last => last + 1
    | none => 0
  let next := pnextScan esz pg elements (elements - start) start
  if next < elements then (List.replicate pg.length false).set (next * esz) true
  else List.replicate pg.length false

/-- Intrinsic `svpnext_b64`. -/
def svpnext_b64 (pg op : svbool_t) : svbool_t := svpnext_b 8 pg op

/-- Intrinsic `svpnext_b32`. -/
def svpnext_b32 (pg op : svbool_t) : svbool_t := svpnext_b 4 pg op

/-- Instruction `CLASTB` (scalar form) at element size `esz`: the last active
element of `data`, or `fallback` when no element is active. -/
def svclastb_n {α : Type} (esz : Nat) (pg : svbool_t) (fallback : α) (data : List α) : α :=
  match LastActiveElement esz pg data.length with
  | some last => data.getD last fallback
  | none => fallback

/-- Intrinsic `svclastb_n_f64`. -/
def svclastb_n_f64 {α : Type} (pg : svbool_t) (fallback : α) (data : List α) : α :=
  svclastb_n 8 pg fallback data

/-- Intrinsic `svclastb_n_f32`. -/
def svclastb_n_f32 {α : Type} (pg : svbool_t) (fallback : α) (data : List α) : α :=
  svclastb_n 4 pg fallback data

/-- Intrinsic `svdup_n_f64` (`DUP`): every 64-bit lane holds `x`. -/
def svdup_n_f64 {α : Type} (VB : Nat) (x : α) : List α :=
  List.replicate (VB / 8) x

/-- Intrinsic `svdup_n_u64` (`DUP`): every 64-bit lane holds `x`. -/
def svdup_n_u64 {α : Type} (VB : Nat) (x : α) : List α :=
  List.replicate (VB / 8) x

/-- Intrinsic `svdup_n_s64` (`DUP`): every 64-bit lane holds `x`. -/
def svdup_n_s64 {α : Type} (VB : Nat) (x : α) : List α :=
  List.replicate (VB / 8) x

/-- Intrinsic `svdup_n_f32` (`DUP`): every 32-bit lane holds `x`. -/
def svdup_n_f32 {α : Type} (VB : Nat) (x : α) : List α :=
  List.replicate (VB / 4) x

/-- Intrinsic `svdup_n_u32` (`DUP`): every 32-bit lane holds `x`. -/
def svdup_n_u32 {α : Type} (VB : Nat) (x : α) : List α :=
  List.replicate (VB / 4) x

/-- Intrinsic `svdup_n_s32` (`DUP`): every 32-bit lane holds `x`. -/
def svdup_n_s32 {α : Type} (VB : Nat) (x : α) : List α :=
  List.replicate (VB / 4) x

/-- Lanes `e`, `e+1`, ... of `SEL`. -/
def svselFrom {α : Type} (esz : Nat) (pg : svbool_t) : Nat → List α → List α → List α
  | e, a :: op1, b :: op2 =>
    (if ElemPredicate esz pg e then a else b) :: svselFrom esz pg (e + 1) op1 op2
  | _, _, _ => []

/-- Instruction `SEL` at element size `esz`: lane `e` is taken from `op1` where
`pg` is active and from `op2` elsewhere. -/
def svsel {α : Type} (esz : Nat) (pg : svbool_t) (op1 op2 : List α) : List α :=
  svselFrom esz pg 0 op1 op2

/-- Intrinsic `svsel_f64`. -/
def svsel_f64 {α : Type} (pg : svbool_t) (op1 op2 : List α) : List α :=
  svsel 8 pg op1 op2

/-- Intrinsic `svsel_f32`. -/
def svsel_f32 {α : Type} (pg : svbool_t) (op1 op2 : List α) : List α :=
  svsel 4 pg op1 op2

/-- Lanes `e`, `e+1`, ... of a predicated multiply-add in its `_x` form. -/
def svmlaFrom {α : Type} (esz : Nat) (fma : α → α → α → α) (pg : svbool_t) :
    Nat → List α → List α → List α → List α → List α
  | e, u :: undef, a :: op1, b :: op2, c :: op3 =>
    (if ElemPredicate esz pg e then fma b c a else u)
      :: svmlaFrom esz fma pg (e + 1) undef op1 op2 op3
  | _, _, _, _, _ => []

/-- Instruction `FMLA` behind `svmla_*_x` at element size `esz`: an active lane
holds `op1 + op2 * op3`, computed by the scalar fused multiply-add
`fma a b c = a * b + c`.  The `_x` form leaves the inactive lanes unspecified;
`undef` is the vector of values they happen to receive. -/
def svmla_x {α : Type} (esz : Nat) (fma : α → α → α → α) (undef : List α) (pg : svbool_t)
    (op1 op2 op3 : List α) : List α :=
  svmlaFrom esz fma pg 0 undef op1 op2 op3

/-- Intrinsic `svmla_f64_x`. -/
def svmla_f64_x {α : Type} (fma : α → α → α → α) (undef : List α) (pg : svbool_t)
    (op1 op2 op3 : List α) : List α :=
  svmla_x 8 fma undef pg op1 op2 op3

/-- Intrinsic `svmla_n_f64_x`: `svmla_f64_x` with the scalar `op3` in every lane. -/
def svmla_n_f64_x {α : Type} (VB : Nat) (fma : α → α → α → α) (undef : List α) (pg : svbool_t)
    (op1 op2 : List α) (op3 : α) : List α :=
  svmla_f64_x fma undef pg op1 op2 (svdup_n_f64 VB op3)

/-- Intrinsic `svmla_f32_x`. -/
def svmla_f32_x {α : Type} (fma : α → α → α → α) (undef : List α) (pg : svbool_t)
    (op1 op2 op3 : List α) : List α :=
  svmla_x 4 fma undef pg op1 op2 op3

/-- Intrinsic `svmla_n_f32_x`: `svmla_f32_x` with the scalar `op3` in every lane. -/
def svmla_n_f32_x {α : Type} (VB : Nat) (fma : α → α → α → α) (undef : List α) (pg : svbool_t)
    (op1 op2 : List α) (op3 : α) : List α :=
  svmla_f32_x fma undef pg op1 op2 (svdup_n_f32 VB op3)

/-- Intrinsic `svreinterpret_u64_f64`: the same bits, read as unsigned integers. -/
def svreinterpret_u64_f64 (x : sv_f64_t) : sv_u64_t :=
  x.map (fun d => ⟨d.bits⟩)

/-- Intrinsic `svreinterpret_f64_u64`: the same bits, read as doubles. -/
def svreinterpret_f64_u64 (x : sv_u64_t) : sv_f64_t :=
  x.map (fun u => ⟨u.bits⟩)

/-- Intrinsic `svreinterpret_u32_f32`: the same bits, read as unsigned integers. -/
def svreinterpret_u32_f32 (x : sv_f32_t) : sv_u32_t :=
  x.map (fun d => ⟨d.bits⟩)

/-- Intrinsic `svreinterpret_f32_u32`: the same bits, read as floats. -/
def svreinterpret_f32_u32 (x : sv_u32_t) : sv_f32_t :=
  x.map (fun u => ⟨u.bits⟩)

/-! ## The wrappers of `sv_math.h`: double precision -/

/-- Wrapper `sv_s64`. -/
def sv_s64 {α : Type} (VB : Nat) (x : α) : List α :=
  svdup_n_s64 VB x

/-- Wrapper `sv_u64`. -/
def sv_u64 {α : Type} (VB : Nat) (x : α) : List α :=
  svdup_n_u64 VB x

/-- Wrapper `sv_f64`. -/
def sv_f64 {α : Type} (VB : Nat) (x : α) : List α :=
  svdup_n_f64 VB x

/-- Wrapper `sv_fma_f64_x`. -/
def sv_fma_f64_x {α : Type} (fma : α → α → α → α) (undef : List α) (pg : svbool_t)
    (x y z : List α) : List α :=
  svmla_f64_x fma undef pg z x y

/-- Wrapper `sv_fma_n_f64_x`: res = z + x * y with x scalar. -/
def sv_fma_n_f64_x {α : Type} (VB : Nat) (fma : α → α → α → α) (undef : List α) (pg : svbool_t)
    (x : α) (y z : List α) : List α :=
  svmla_n_f64_x VB fma undef pg z y x

/-- Wrapper `sv_as_u64_f64`. -/
def sv_as_u64_f64 (x : sv_f64_t) : sv_u64_t :=
  svreinterpret_u64_f64 x

/-- Wrapper `sv_as_f64_u64`. -/
def sv_as_f64_u64 (x : sv_u64_t) : sv_f64_t :=
  svreinterpret_f64_u64 x

/-- How a run of a dispatcher ends: it returns, the scalar routine traps (or
is absent), or the iteration budget runs out before the loop exits. -/
inductive Run (β : Type) where
  | done (r : β)
  | trapped
  | unfinished
deriving DecidableEq

/-- What a dispatcher run yields: the returned vector `ret` and, for each
iteration of the loop in order, the cursor `p` on entry to the body together
with the argument handed to the scalar routine. -/
structure CallResult (α : Type) where
  ret : List α
  calls : List (svbool_t × α)
deriving DecidableEq

/-- The `while` loop of `sv_call_f64`, from working vector `y` and cursor `p`,
allowed at most `fuel` iterations of its body.  A scalar routine that traps or
is absent is one that returns `none`. -/
def sv_call_f64_loop {α : Type} [Zero α] (VB : Nat) (f : α → Option α) (x : List α)
    (cmp : svbool_t) : Nat → List α → svbool_t → Run (CallResult α)
  | 0, y, p => if svptest_any cmp p then .unfinished else .done ⟨y, []⟩
  | fuel + 1, y, p =>
    if svptest_any cmp p then
      let elem := svclastb_n_f64 p 0 x
      match f elem with
      | none => .trapped
      | some elem2 =>
        let y2 := svdup_n_f64 VB elem2
        let y := svsel_f64 p y2 y
        let p2 := svpnext_b64 cmp p
        match sv_call_f64_loop VB f x cmp fuel y p2 with
        | .done r => .done ⟨r.ret, (p, elem) :: r.calls⟩
        | .trapped => .trapped
        | .unfinished => .unfinished
    else .done ⟨y, []⟩

/-- Dispatcher `sv_call_f64`. -/
def sv_call_f64 {α : Type} [Zero α] (VB : Nat) (fuel : Nat) (f : α → Option α)
    (x y : List α) (cmp : svbool_t) : Run (CallResult α) :=
  let p := svpfirst cmp (svpfalse VB)
  sv_call_f64_loop VB f x cmp fuel y p

/-! ## The wrappers of `sv_math.h`: single precision -/

/-- Wrapper `sv_s32`. -/
def sv_s32 {α : Type} (VB : Nat) (x : α) : List α :=
  svdup_n_s32 VB x

/-- Wrapper `sv_u32`. -/
def sv_u32 {α : Type} (VB : Nat) (x : α) : List α :=
  svdup_n_u32 VB x

/-- Wrapper `sv_f32`. -/
def sv_f32 {α : Type} (VB : Nat) (x : α) : List α :=
  svdup_n_f32 VB x

/-- Wrapper `sv_fma_f32_x`. -/
def sv_fma_f32_x {α : Type} (fma : α → α → α → α) (undef : List α) (pg : svbool_t)
    (x y z : List α) : List α :=
  svmla_f32_x fma undef pg z x y

/-- Wrapper `sv_fma_n_f32_x`: res = z + x * y with x scalar. -/
def sv_fma_n_f32_x {α : Type} (VB : Nat) (fma : α → α → α → α) (undef : List α) (pg : svbool_t)
    (x : α) (y z : List α) : List α :=
  svmla_n_f32_x VB fma undef pg z y x

/-- Wrapper `sv_as_u32_f32`. -/
def sv_as_u32_f32 (x : sv_f32_t) : sv_u32_t :=
  svreinterpret_u32_f32 x

/-- Wrapper `sv_as_f32_u32`. -/
def sv_as_f32_u32 (x : sv_u32_t) : sv_f32_t :=
  svreinterpret_f32_u32 x

/-- The `while` loop of `sv_call_f32`, from working vector `y` and cursor `p`,
allowed at most `fuel` iterations of its body. -/
def sv_call_f32_loop {α : Type} [Zero α] (VB : Nat) (f : α → Option α) (x : List α)
    (cmp : svbool_t) : Nat → List α → svbool_t → Run (CallResult α)
  | 0, y, p => if svptest_any cmp p then .unfinished else .done ⟨y, []⟩
  | fuel + 1, y, p =>
    if svptest_any cmp p then
      let elem := svclastb_n_f32 p 0 x
      match f elem with
      | none => .trapped
      | some elem2 =>
        let y2 := svdup_n_f32 VB elem2
        let y := svsel_f32 p y2 y
        let p2 := svpnext_b32 cmp p
        match sv_call_f32_loop VB f x cmp fuel y p2 with
        | .done r => .done ⟨r.ret, (p, elem) :: r.calls⟩
        | .trapped => .trapped
        | .unfinished => .unfinished
    else .done ⟨y, []⟩

/-- Dispatcher `sv_call_f32`. -/
def sv_call_f32 {α : Type} [Zero α] (VB : Nat) (fuel : Nat) (f : α → Option α)
    (x y : List α) (cmp : svbool_t) : Run (CallResult α) :=
  let p := svpfirst cmp (svpfalse VB)
  sv_call_f32_loop VB f x cmp fuel y p

/-! ## Lane predicates and cursors -/

/-- A predicate over `W` elements of `esz` bytes with every flag outside the
element granule clear: what a compare at that element size produces. -/
def IsLanePred (esz W : Nat) (p : svbool_t) : Prop :=
  p.length = W * esz ∧ ∀ k, k < p.length → k % esz ≠ 0 → p.getD k false = false

instance (esz W : Nat) (p : svbool_t) : Decidable (IsLanePred esz W p) := by
  unfold IsLanePred; infer_instance

/-- The predicate of `PL` flags whose only set flag is that of element `e`. -/
def laneCursor (esz PL e : Nat) : svbool_t :=
  (List.replicate PL false).set (e * esz) true

/-- The cursor `PNEXT` yields when its scan starts at element `s`: the flag of
the first active element of `cmp` at or after `s`, or no flag. -/
def cursorFrom (esz : Nat) (cmp : svbool_t) (W s : Nat) : svbool_t :=
  if pnextScan esz cmp W (W - s) s < W then
    laneCursor esz cmp.length (pnextScan esz cmp W (W - s) s)
  else List.replicate cmp.length false

/-- The active elements of `cmp` at or after `s`, in ascending order. -/
def activeFrom (esz : Nat) (cmp : svbool_t) (W s : Nat) : List Nat :=
  (List.range' s (W - s)).filter (ElemPredicate esz cmp)

/-- The active 64-bit lanes of `cmp` among the first `W`, lowest first. -/
def activeLanes (cmp : svbool_t) (W : Nat) : List Nat :=
  (List.range W).filter (ElemPredicate 8 cmp)

/-- A predicate over two 64-bit lanes (the 128-bit vector length) with lane
flags `b0` and `b1`. -/
def lanes2 (b0 b1 : Bool) : svbool_t :=
  [b0, false, false, false, false, false, false, false,
   b1, false, false, false, false, false, false, false]

/-- A predicate over two 32-bit lanes with lane flags `b0` and `b1`. -/
def lanes2s (b0 b1 : Bool) : svbool_t :=
  [b0, false, false, false, b1, false, false, false]

/-- Apply `g` to what a run returns; a trapped or unfinished run stays so. -/
def Run.map {β γ : Type} (g : β → γ) : Run β → Run γ
  | .done r => .done (g r)
  | .trapped => .trapped
  | .unfinished => .unfinished

/-- A dispatcher result with every cursor read as the lane `CLASTB` extracts
under it at element size `esz`: the returned vector and, per iteration, the
lane visited and the argument handed to the scalar routine. -/
def laneView {α : Type} (esz W : Nat) (r : CallResult α) : List α × List (Option Nat × α) :=
  (r.ret, r.calls.map (fun c => (LastActiveElement esz c.1 W, c.2)))

/-- Flag-wise OR of two predicates. -/
def predOr (p q : svbool_t) : svbool_t :=
  List.zipWith (fun a b => a || b) p q

theorem elemPredicate_replicate_false (esz n e : Nat) :
    ElemPredicate esz (List.replicate n false) e = false := by
  unfold ElemPredicate
  rw [List.getD_eq_getElem?_getD, List.getElem?_replicate]
  split <;> rfl

theorem elemPredicate_laneCursor {esz PL e : Nat} (hesz : 0 < esz) (he : e * esz < PL)
    (i : Nat) : ElemPredicate esz (laneCursor esz PL e) i = decide (i = e) := by
  unfold ElemPredicate laneCursor
  rw [List.getD_eq_getElem?_getD, List.getElem?_set]
  by_cases h : i = e
  · subst h
    simp [he]
  · have hne : e * esz ≠ i * esz := by
      intro hc
      exact h (Nat.eq_of_mul_eq_mul_right hesz hc).symm
    simp only [hne, if_false, h, decide_False]
    rw [List.getElem?_replicate]
    split <;> rfl

theorem lastActiveElement_replicate_false (esz n m : Nat) :
    LastActiveElement esz (List.replicate n false) m = none := by
  induction m with
  | zero => rfl
  | succ m ih => simp [LastActiveElement, elemPredicate_replicate_false, ih]

theorem lastActiveElement_laneCursor {esz PL e : Nat} (hesz : 0 < esz) (he : e * esz < PL)
    (m : Nat) :
    LastActiveElement esz (laneCursor esz PL e) m = if e < m then some e else none := by
  induction m with
  | zero => simp [LastActiveElement]
  | succ m ih =>
    rw [LastActiveElement, elemPredicate_laneCursor hesz he, ih]
    by_cases h : m = e
    · subst h; simp
    · simp only [h, decide_False, Bool.false_eq_true, if_false]
      by_cases h2 : e < m
      · simp [h2, Nat.lt_succ_of_lt h2]
      · have : ¬ e < m + 1 := by omega
        simp [h2, this]

theorem svptest_any_eq_true_iff (pg op : svbool_t) :
    svptest_any pg op = true ↔ ∃ k, pg.getD k false = true ∧ op.getD k false = true := by
  unfold svptest_any
  induction pg generalizing op with
  | nil => simp
  | cons g pg ih =>
    cases op with
    | nil => simp
    | cons b op =>
      rw [List.zipWith_cons_cons, List.any_cons, Bool.or_eq_true, ih]
      constructor
      · rintro (h | ⟨k, hk⟩)
        · exact ⟨0, by simpa using h⟩
        · exact ⟨k + 1, by simpa using hk⟩
      · rintro ⟨k, hk⟩
        cases k with
        | zero => left; simpa using hk
        | succ k => right; exact ⟨k, by simpa using hk⟩

theorem svptest_any_replicate_false (pg : svbool_t) (n : Nat) :
    svptest_any pg (List.replicate n false) = false := by
  rw [Bool.eq_false_iff]
  intro h
  obtain ⟨k, -, hk⟩ := (svptest_any_eq_true_iff _ _).1 h
  rw [List.getD_eq_getElem?_getD, List.getElem?_replicate] at hk
  split at hk <;> simp at hk

theorem svptest_any_laneCursor {esz PL e : Nat} (hesz : 0 < esz) (he : e * esz < PL)
    (pg : svbool_t) :
    svptest_any pg (laneCursor esz PL e) = ElemPredicate esz pg e := by
  rw [Bool.eq_iff_iff, svptest_any_eq_true_iff]
  constructor
  · rintro ⟨k, hk1, hk2⟩
    have : k = e * esz := by
      by_contra hne
      unfold laneCursor at hk2
      rw [List.getD_eq_getElem?_getD, List.getElem?_set] at hk2
      have hne2 : ¬ e * esz = k := fun h => hne h.symm
      simp only [hne2, if_false] at hk2
      rw [List.getElem?_replicate] at hk2
      split at hk2 <;> simp at hk2
    subst this
    exact hk1
  · intro h
    refine ⟨e * esz, h, ?_⟩
    have := elemPredicate_laneCursor hesz he e
    simpa [ElemPredicate] using this

theorem pnextScan_ge (esz : Nat) (pg : svbool_t) (W fuel s : Nat) :
    s ≤ pnextScan esz pg W fuel s := by
  induction fuel generalizing s with
  | zero => simp [pnextScan]
  | succ fuel ih =>
    rw [pnextScan]
    split
    · exact Nat.le_trans (Nat.le_succ s) (ih (s + 1))
    · exact Nat.le_refl s

theorem pnextScan_skip (esz : Nat) (pg : svbool_t) (W fuel s n : Nat)
    (h1 : s ≤ n) (h2 : n < pnextScan esz pg W fuel s) : ElemPredicate esz pg n = false := by
  induction fuel generalizing s with
  | zero => simp [pnextScan] at h2; omega
  | succ fuel ih =>
    rw [pnextScan] at h2
    split at h2
    · rename_i hc
      by_cases hsn : s = n
      · subst hsn
        simp at hc
        exact hc.2
      · exact ih (s + 1) (by omega) h2
    · omega

theorem pnextScan_active (esz : Nat) (pg : svbool_t) (W fuel s : Nat)
    (hfuel : W - s ≤ fuel) (h : pnextScan esz pg W fuel s < W) :
    ElemPredicate esz pg (pnextScan esz pg W fuel s) = true := by
  induction fuel generalizing s with
  | zero => simp [pnextScan] at h; omega
  | succ fuel ih =>
    rw [pnextScan] at h ⊢
    split
    · rename_i hc
      simp only [hc, if_true] at h
      exact ih (s + 1) (by omega) h
    · rename_i hc
      simp only [hc] at h
      simp at hc
      simp at h
      cases hv : ElemPredicate esz pg s with
      | true => rfl
      | false => exact absurd (hc h) (by simp [hv])

theorem activeFrom_scan (esz : Nat) (cmp : svbool_t) (W fuel s : Nat) (hfuel : W - s = fuel) :
    activeFrom esz cmp W s =
      if pnextScan esz cmp W fuel s < W then
        pnextScan esz cmp W fuel s :: activeFrom esz cmp W (pnextScan esz cmp W fuel s + 1)
      else [] := by
  induction fuel generalizing s with
  | zero =>
    have : ¬ s < W := by omega
    simp [pnextScan, activeFrom, hfuel, this]
  | succ fuel ih =>
    have hs : s < W := by omega
    have hrange : List.range' s (W - s) = s :: List.range' (s + 1) (W - (s + 1)) := by
      rw [hfuel, List.range'_succ]
      congr 2
      omega
    rw [pnextScan]
    cases hv : ElemPredicate esz cmp s with
    | true =>
      simp only [hs, decide_True, Bool.not_true, Bool.and_false, Bool.false_eq_true, if_false,
        if_true]
      unfold activeFrom
      rw [hrange, List.filter_cons]
      simp [hv]
    | false =>
      simp only [hs, decide_True, Bool.not_false, Bool.and_self, if_true]
      rw [← ih (s + 1) (by omega)]
      unfold activeFrom
      rw [hrange, List.filter_cons]
      simp [hv]

theorem svpnext_b_laneCursor {esz W e : Nat} (hesz : 0 < esz) (cmp : svbool_t)
    (hlen : cmp.length = W * esz) (he : e < W) :
    svpnext_b esz cmp (laneCursor esz cmp.length e) = cursorFrom esz cmp W (e + 1) := by
  have hel : cmp.length / esz = W := by rw [hlen]; exact Nat.mul_div_cancel W hesz
  have hlt : e * esz < cmp.length := by
    rw [hlen]; exact Nat.mul_lt_mul_of_pos_right he hesz
  unfold svpnext_b cursorFrom
  simp only [hel]
  rw [lastActiveElement_laneCursor hesz hlt]
  simp only [he, if_true]
  rfl

theorem svclastb_n_laneCursor {α : Type} {esz PL e : Nat} (hesz : 0 < esz)
    (he : e * esz < PL) (fallback : α) (data : List α) (hd : e < data.length) :
    svclastb_n esz (laneCursor esz PL e) fallback data = data.getD e fallback := by
  unfold svclastb_n
  rw [lastActiveElement_laneCursor hesz he]
  simp only [hd, if_true]

theorem svselFrom_laneCursor {α : Type} {esz PL e : Nat} (hesz : 0 < esz)
    (he : e * esz < PL) (v : α) (y : List α) (s : Nat) :
    svselFrom esz (laneCursor esz PL e) s (List.replicate y.length v) y =
      if s ≤ e then y.set (e - s) v else y := by
  induction y generalizing s with
  | nil => simp [svselFrom]
  | cons b ys ih =>
    rw [List.length_cons, List.replicate_succ, svselFrom, elemPredicate_laneCursor hesz he, ih]
    by_cases h1 : s = e
    · subst h1
      simp
    · by_cases h2 : s < e
      · have h3 : s + 1 ≤ e := h2
        have h4 : e - s = (e - (s + 1)) + 1 := by omega
        simp [h1, h3, Nat.le_of_lt h2, h4]
      · have h3 : ¬ s + 1 ≤ e := by omega
        have h4 : ¬ s ≤ e := by omega
        simp [h1, h3, h4]

theorem svsel_laneCursor {α : Type} {esz PL e : Nat} (hesz : 0 < esz)
    (he : e * esz < PL) (v : α) (y : List α) :
    svsel esz (laneCursor esz PL e) (List.replicate y.length v) y = y.set e v := by
  unfold svsel
  rw [svselFrom_laneCursor hesz he]
  simp

theorem getD_false_of_findIdx_none (cmp : svbool_t)
    (h : cmp.findIdx? (fun b => b) = none) (k : Nat) : cmp.getD k false = false := by
  rw [List.findIdx?_eq_none_iff] at h
  by_cases hk : k < cmp.length
  · rw [List.getD_eq_getElem _ _ hk]
    exact h _ (List.getElem_mem hk)
  · exact List.getD_eq_default _ _ (by omega)

theorem svpfirst_lanePred {esz W : Nat} (hesz : 0 < esz) (cmp : svbool_t)
    (h : IsLanePred esz W cmp) :
    svpfirst cmp (svpfalse cmp.length) = cursorFrom esz cmp W 0 := by
  obtain ⟨hlen, hclear⟩ := h
  unfold svpfirst cursorFrom svpfalse
  cases hfi : cmp.findIdx? (fun b => b) with
  | none =>
    have hno : ¬ pnextScan esz cmp W (W - 0) 0 < W := by
      intro hlt
      have := pnextScan_active esz cmp W (W - 0) 0 (Nat.le_refl _) hlt
      unfold ElemPredicate at this
      rw [getD_false_of_findIdx_none cmp hfi] at this
      exact Bool.false_ne_true this
    simp only [hno, if_false]
  | some k =>
    rw [List.findIdx?_eq_some_iff_getElem] at hfi
    obtain ⟨hk, hset, hfirst⟩ := hfi
    have hkd : cmp.getD k false = true := by
      rw [List.getD_eq_getElem _ _ hk]; exact hset
    have hmod : k % esz = 0 := by
      by_contra hne
      rw [hclear k hk hne] at hkd
      exact Bool.false_ne_true hkd
    have hke : k / esz * esz = k := Nat.div_mul_cancel (Nat.dvd_of_mod_eq_zero hmod)
    have heW : k / esz < W := by
      rw [hlen] at hk
      exact Nat.div_lt_of_lt_mul (by rw [Nat.mul_comm]; exact hk)
    have hact : ElemPredicate esz cmp (k / esz) = true := by
      unfold ElemPredicate; rw [hke]; exact hkd
    have hbelow : ∀ n, n < k / esz → ElemPredicate esz cmp n = false := by
      intro n hn
      have hnk : n * esz < k := by
        rw [← hke]; exact Nat.mul_lt_mul_of_pos_right hn hesz
      unfold ElemPredicate
      rw [List.getD_eq_getElem _ _ (Nat.lt_trans hnk hk)]
      have := hfirst (n * esz) hnk
      simpa using this
    have hr : pnextScan esz cmp W (W - 0) 0 = k / esz := by
      apply Nat.le_antisymm
      · by_contra hgt
        have := pnextScan_skip esz cmp W (W - 0) 0 (k / esz) (Nat.zero_le _) (by omega)
        rw [hact] at this
        exact Bool.false_ne_true this.symm
      · by_contra hlt
        have hlt2 : pnextScan esz cmp W (W - 0) 0 < k / esz := by omega
        have h1 := pnextScan_active esz cmp W (W - 0) 0 (Nat.le_refl _) (by omega)
        rw [hbelow _ hlt2] at h1
        exact Bool.false_ne_true h1
    rw [hr]
    simp only [heW, if_true]
    unfold laneCursor
    rw [hke]

theorem getElemOpt_foldl_set {α : Type} (g : Nat → α) (l : List Nat) (y : List α) (i : Nat) :
    (l.foldl (fun acc e => acc.set e (g e)) y)[i]? =
      if i ∈ l ∧ i < y.length then some (g i) else y[i]? := by
  induction l generalizing y with
  | nil => simp
  | cons e l ih =>
    rw [List.foldl_cons, ih, List.length_set, List.getElem?_set]
    by_cases h1 : i ∈ l
    · by_cases h2 : i < y.length
      · simp [h1, h2]
      · have h3 : y[i]? = none := List.getElem?_eq_none (by omega)
        simp [h1, h2, h3]
        omega
    · by_cases h2 : e = i
      · subst h2
        by_cases h3 : e < y.length
        · simp [h1, h3]
        · have h4 : y[e]? = none := List.getElem?_eq_none (by omega)
          simp [h1, h3, h4]
      · have h3 : ¬ i = e := fun h => h2 h.symm
        simp [h1, h2, h3]

theorem length_foldl_set {α : Type} (g : Nat → α) (l : List Nat) (y : List α) :
    (l.foldl (fun acc e => acc.set e (g e)) y).length = y.length := by
  induction l generalizing y with
  | nil => rfl
  | cons e l ih => rw [List.foldl_cons, ih, List.length_set]

/-! ## The loop of `sv_call_f64` on a lane predicate -/

theorem sv_call_f64_loop_exit {α : Type} [Zero α] (VB : Nat) (f : α → Option α) (x : List α)
    (cmp : svbool_t) (n fuel : Nat) (y : List α) :
    sv_call_f64_loop VB f x cmp fuel y (List.replicate n false) = .done ⟨y, []⟩ := by
  cases fuel <;> simp [sv_call_f64_loop, svptest_any_replicate_false]

theorem sv_call_f64_loop_spec {α : Type} [Zero α] {W : Nat} (f : α → α) (x : List α)
    (cmp : svbool_t) (hcmp : IsLanePred 8 W cmp) (hx : x.length = W) (fuel : Nat) :
    ∀ (s : Nat) (y : List α), y.length = W → W - s ≤ fuel →
      sv_call_f64_loop (8 * W) (fun a => some (f a)) x cmp fuel y (cursorFrom 8 cmp W s) =
        .done ⟨(activeFrom 8 cmp W s).foldl (fun acc e => acc.set e (f (x.getD e 0))) y,
          (activeFrom 8 cmp W s).map (fun e => (laneCursor 8 cmp.length e, x.getD e 0))⟩ := by
  have h8 : 0 < 8 := by decide
  induction fuel with
  | zero =>
    intro s y _ hf
    have hno : ¬ pnextScan 8 cmp W (W - s) s < W := by
      have := pnextScan_ge 8 cmp W (W - s) s
      omega
    rw [activeFrom_scan 8 cmp W (W - s) s rfl]
    unfold cursorFrom
    simp only [hno, if_false]
    rw [sv_call_f64_loop_exit]
    rfl
  | succ fuel ih =>
    intro s y hy hf
    rw [activeFrom_scan 8 cmp W (W - s) s rfl]
    unfold cursorFrom
    by_cases hr : pnextScan 8 cmp W (W - s) s < W
    · simp only [hr, if_true]
      generalize hrdef : pnextScan 8 cmp W (W - s) s = r at hr ⊢
      have hact : ElemPredicate 8 cmp r = true := by
        rw [← hrdef]
        exact pnextScan_active 8 cmp W (W - s) s (Nat.le_refl _) (by rw [hrdef]; exact hr)
      have hrs : s ≤ r := by rw [← hrdef]; exact pnextScan_ge 8 cmp W (W - s) s
      have hlt : r * 8 < cmp.length := by rw [hcmp.1]; omega
      have hdiv : 8 * W / 8 = W := by omega
      rw [sv_call_f64_loop]
      rw [svptest_any_laneCursor h8 hlt, hact]
      simp only [if_true]
      unfold svclastb_n_f64 svsel_f64 svdup_n_f64 svpnext_b64
      rw [svclastb_n_laneCursor h8 hlt 0 x (by omega)]
      rw [hdiv]
      have hyl : List.replicate W (f (x.getD r 0)) = List.replicate y.length (f (x.getD r 0)) := by
        rw [hy]
      rw [hyl, svsel_laneCursor h8 hlt, svpnext_b_laneCursor h8 cmp hcmp.1 hr]
      rw [ih (r + 1) _ (by rw [List.length_set]; exact hy) (by omega)]
      simp
    · simp only [hr, if_false]
      rw [sv_call_f64_loop_exit]
      rfl

theorem sv_call_f64_spec {α : Type} [Zero α] {W : Nat} (f : α → α) (x y : List α)
    (cmp : svbool_t) (hcmp : IsLanePred 8 W cmp) (hx : x.length = W) (hy : y.length = W)
    (fuel : Nat) (hfuel : W ≤ fuel) :
    sv_call_f64 (8 * W) fuel (fun a => some (f a)) x y cmp =
      .done ⟨(activeFrom 8 cmp W 0).foldl (fun acc e => acc.set e (f (x.getD e 0))) y,
        (activeFrom 8 cmp W 0).map (fun e => (laneCursor 8 cmp.length e, x.getD e 0))⟩ := by
  have hl : 8 * W = cmp.length := by rw [hcmp.1]; omega
  have hp : svpfirst cmp (svpfalse (8 * W)) = cursorFrom 8 cmp W 0 := by
    rw [hl]
    exact svpfirst_lanePred (by decide) cmp hcmp
  unfold sv_call_f64
  simp only [hp]
  exact sv_call_f64_loop_spec f x cmp hcmp hx fuel 0 y hy (by omega)

/-! ## The loop of `sv_call_f32` on a lane predicate -/

theorem sv_call_f32_loop_exit {α : Type} [Zero α] (VB : Nat) (f : α → Option α) (x : List α)
    (cmp : svbool_t) (n fuel : Nat) (y : List α) :
    sv_call_f32_loop VB f x cmp fuel y (List.replicate n false) = .done ⟨y, []⟩ := by
  cases fuel <;> simp [sv_call_f32_loop, svptest_any_replicate_false]

theorem sv_call_f32_loop_spec {α : Type} [Zero α] {W : Nat} (f : α → α) (x : List α)
    (cmp : svbool_t) (hcmp : IsLanePred 4 W cmp) (hx : x.length = W) (fuel : Nat) :
    ∀ (s : Nat) (y : List α), y.length = W → W - s ≤ fuel →
      sv_call_f32_loop (4 * W) (fun a => some (f a)) x cmp fuel y (cursorFrom 4 cmp W s) =
        .done ⟨(activeFrom 4 cmp W s).foldl (fun acc e => acc.set e (f (x.getD e 0))) y,
          (activeFrom 4 cmp W s).map (fun e => (laneCursor 4 cmp.length e, x.getD e 0))⟩ := by
  have h4 : 0 < 4 := by decide
  induction fuel with
  | zero =>
    intro s y _ hf
    have hno : ¬ pnextScan 4 cmp W (W - s) s < W := by
      have := pnextScan_ge 4 cmp W (W - s) s
      omega
    rw [activeFrom_scan 4 cmp W (W - s) s rfl]
    unfold cursorFrom
    simp only [hno, if_false]
    rw [sv_call_f32_loop_exit]
    rfl
  | succ fuel ih =>
    intro s y hy hf
    rw [activeFrom_scan 4 cmp W (W - s) s rfl]
    unfold cursorFrom
    by_cases hr : pnextScan 4 cmp W (W - s) s < W
    · simp only [hr, if_true]
      generalize hrdef : pnextScan 4 cmp W (W - s) s = r at hr ⊢
      have hact : ElemPredicate 4 cmp r = true := by
        rw [← hrdef]
        exact pnextScan_active 4 cmp W (W - s) s (Nat.le_refl _) (by rw [hrdef]; exact hr)
      have hrs : s ≤ r := by rw [← hrdef]; exact pnextScan_ge 4 cmp W (W - s) s
      have hlt : r * 4 < cmp.length := by rw [hcmp.1]; omega
      have hdiv : 4 * W / 4 = W := by omega
      rw [sv_call_f32_loop]
      rw [svptest_any_laneCursor h4 hlt, hact]
      simp only [if_true]
      unfold svclastb_n_f32 svsel_f32 svdup_n_f32 svpnext_b32
      rw [svclastb_n_laneCursor h4 hlt 0 x (by omega)]
      rw [hdiv]
      have hyl : List.replicate W (f (x.getD r 0)) = List.replicate y.length (f (x.getD r 0)) := by
        rw [hy]
      rw [hyl, svsel_laneCursor h4 hlt, svpnext_b_laneCursor h4 cmp hcmp.1 hr]
      rw [ih (r + 1) _ (by rw [List.length_set]; exact hy) (by omega)]
      simp
    · simp only [hr, if_false]
      rw [sv_call_f32_loop_exit]
      rfl

theorem sv_call_f32_spec {α : Type} [Zero α] {W : Nat} (f : α → α) (x y : List α)
    (cmp : svbool_t) (hcmp : IsLanePred 4 W cmp) (hx : x.length = W) (hy : y.length = W)
    (fuel : Nat) (hfuel : W ≤ fuel) :
    sv_call_f32 (4 * W) fuel (fun a => some (f a)) x y cmp =
      .done ⟨(activeFrom 4 cmp W 0).foldl (fun acc e => acc.set e (f (x.getD e 0))) y,
        (activeFrom 4 cmp W 0).map (fun e => (laneCursor 4 cmp.length e, x.getD e 0))⟩ := by
  have hl : 4 * W = cmp.length := by rw [hcmp.1]; omega
  have hp : svpfirst cmp (svpfalse (4 * W)) = cursorFrom 4 cmp W 0 := by
    rw [hl]
    exact svpfirst_lanePred (by decide) cmp hcmp
  unfold sv_call_f32
  simp only [hp]
  exact sv_call_f32_loop_spec f x cmp hcmp hx fuel 0 y hy (by omega)

theorem activeFrom_zero (cmp : svbool_t) (W : Nat) :
    activeFrom 8 cmp W 0 = activeLanes cmp W := by
  unfold activeFrom activeLanes
  rw [List.range_eq_range', Nat.sub_zero]

theorem mem_activeLanes (cmp : svbool_t) (W i : Nat) :
    i ∈ activeLanes cmp W ↔ i < W ∧ ElemPredicate 8 cmp i = true := by
  unfold activeLanes
  rw [List.mem_filter, List.mem_range]

theorem sv_call_f64_run {α : Type} [Zero α] {W : Nat} (f : α → α) (x y : List α)
    (cmp : svbool_t) (hcmp : IsLanePred 8 W cmp) (hx : x.length = W) (hy : y.length = W)
    (fuel : Nat) (hfuel : W ≤ fuel) :
    sv_call_f64 (8 * W) fuel (fun a => some (f a)) x y cmp =
      .done ⟨(activeLanes cmp W).foldl (fun acc e => acc.set e (f (x.getD e 0))) y,
        (activeLanes cmp W).map (fun e => (laneCursor 8 (8 * W) e, x.getD e 0))⟩ := by
  have hl : 8 * W = cmp.length := by rw [hcmp.1]; omega
  rw [sv_call_f64_spec f x y cmp hcmp hx hy fuel hfuel, activeFrom_zero, hl]

theorem getD_of_getElemOpt {α : Type} (x : List α) (i : Nat) (a d : α) (h : x[i]? = some a) :
    x.getD i d = a := by
  rw [List.getD_eq_getElem?_getD, h]
  rfl

theorem laneCursor_inj {esz PL e e2 : Nat} (hesz : 0 < esz) (he : e * esz < PL)
    (he2 : e2 * esz < PL) (h : laneCursor esz PL e = laneCursor esz PL e2) : e = e2 := by
  have h1 := elemPredicate_laneCursor hesz he e
  rw [h, elemPredicate_laneCursor hesz he2] at h1
  simpa using h1

theorem getD_eq_of_lt {α : Type} (x : List α) (i : Nat) (d : α) (h : i < x.length) :
    some (x.getD i d) = x[i]? := by
  rw [List.getD_eq_getElem?_getD, List.getElem?_eq_getElem h]
  rfl

theorem getElemOpt_svmlaFrom {α : Type} (esz : Nat) (fma : α → α → α → α) (pg : svbool_t)
    (i : Nat) :
    ∀ (s : Nat) (undef op1 op2 op3 : List α) (u a b c : α),
      undef[i]? = some u → op1[i]? = some a → op2[i]? = some b → op3[i]? = some c →
      (svmlaFrom esz fma pg s undef op1 op2 op3)[i]? =
        some (if ElemPredicate esz pg (s + i) then fma b c a else u) := by
  induction i with
  | zero =>
    intro s undef op1 op2 op3 u a b c hu ha hb hc
    cases undef with
    | nil => simp at hu
    | cons u0 undef =>
      cases op1 with
      | nil => simp at ha
      | cons a0 op1 =>
        cases op2 with
        | nil => simp at hb
        | cons b0 op2 =>
          cases op3 with
          | nil => simp at hc
          | cons c0 op3 =>
            simp at hu ha hb hc
            subst hu ha hb hc
            simp [svmlaFrom]
  | succ i ih =>
    intro s undef op1 op2 op3 u a b c hu ha hb hc
    cases undef with
    | nil => simp at hu
    | cons u0 undef =>
      cases op1 with
      | nil => simp at ha
      | cons a0 op1 =>
        cases op2 with
        | nil => simp at hb
        | cons b0 op2 =>
          cases op3 with
          | nil => simp at hc
          | cons c0 op3 =>
            simp only [List.getElem?_cons_succ] at hu ha hb hc
            rw [svmlaFrom, List.getElem?_cons_succ, ih (s + 1) undef op1 op2 op3 u a b c hu ha hb hc]
            have : s + 1 + i = s + (i + 1) := by omega
            rw [this]

theorem getElemOpt_svmla_x_active {α : Type} (esz : Nat) (fma : α → α → α → α) (pg : svbool_t)
    (undef op1 op2 op3 : List α) (i : Nat) (u a b c : α)
    (hact : ElemPredicate esz pg i = true)
    (hu : undef[i]? = some u) (ha : op1[i]? = some a) (hb : op2[i]? = some b)
    (hc : op3[i]? = some c) :
    (svmla_x esz fma undef pg op1 op2 op3)[i]? = some (fma b c a) := by
  unfold svmla_x
  rw [getElemOpt_svmlaFrom esz fma pg i 0 undef op1 op2 op3 u a b c hu ha hb hc, Nat.zero_add,
    hact]
  rfl

/-! ## The claims -/

/-- C1: on a per-lane predicate, every selected lane of the vector returned by
`sv_call_f64 (f, x, y, cmp)` holds `f` of that lane of `x`. -/
theorem sv_call_f64_selected_lane {α : Type} [Zero α] (W : Nat) (f : α → α) (x y : List α)
    (cmp : svbool_t) (fuel i : Nat) (a : α)
    (hcmp : IsLanePred 8 W cmp) (hx : x.length = W) (hy : y.length = W) (hfuel : W ≤ fuel)
    (hi : ElemPredicate 8 cmp i = true) (hxi : x[i]? = some a) :
    ∃ r, sv_call_f64 (8 * W) fuel (fun v => some (f v)) x y cmp = .done r ∧
      r.ret[i]? = some (f a) := by
  refine ⟨_, sv_call_f64_run f x y cmp hcmp hx hy fuel hfuel, ?_⟩
  have hiW : i < W := by
    rw [← hx]
    by_contra hge
    rw [List.getElem?_eq_none (by omega)] at hxi
    exact Option.noConfusion hxi
  have hmem : i ∈ activeLanes cmp W := (mem_activeLanes cmp W i).2 ⟨hiW, hi⟩
  show (List.foldl _ y (activeLanes cmp W))[i]? = _
  rw [getElemOpt_foldl_set (fun e => f (x.getD e 0)), getD_of_getElemOpt x i a 0 hxi]
  simp [hmem, hy, hiW]

theorem sv_call_f64_selected_lane_witness :
    IsLanePred 8 2 (lanes2 true true) ∧
      ∃ r, sv_call_f64 (8 * 2) 2 (fun v => some ((fun a : Int => a + 1) v)) [5, 2] [5, 2]
          (lanes2 true true) = .done r ∧ r.ret[1]? = some ((fun a : Int => a + 1) 2) :=
  ⟨by decide, sv_call_f64_selected_lane 2 (fun a : Int => a + 1) [5, 2] [5, 2]
    (lanes2 true true) 2 1 2 (by decide) rfl rfl (Nat.le_refl 2) rfl rfl⟩

/-- C2: on a per-lane predicate, every unselected lane of the vector returned
by `sv_call_f64 (f, x, y, cmp)` is that lane of `y`, whatever `f` is. -/
theorem sv_call_f64_unselected_lane {α : Type} [Zero α] (W : Nat) (f : α → α) (x y : List α)
    (cmp : svbool_t) (fuel i : Nat)
    (hcmp : IsLanePred 8 W cmp) (hx : x.length = W) (hy : y.length = W) (hfuel : W ≤ fuel)
    (hi : ElemPredicate 8 cmp i = false) :
    ∃ r, sv_call_f64 (8 * W) fuel (fun v => some (f v)) x y cmp = .done r ∧
      r.ret[i]? = y[i]? := by
  refine ⟨_, sv_call_f64_run f x y cmp hcmp hx hy fuel hfuel, ?_⟩
  have hmem : ¬ i ∈ activeLanes cmp W := by
    intro h
    rw [((mem_activeLanes cmp W i).1 h).2] at hi
    exact Bool.noConfusion hi
  show (List.foldl _ y (activeLanes cmp W))[i]? = _
  rw [getElemOpt_foldl_set (fun e => f (x.getD e 0))]
  simp [hmem]

theorem sv_call_f64_unselected_lane_witness :
    IsLanePred 8 2 (lanes2 true false) ∧
      ∃ r, sv_call_f64 (8 * 2) 2 (fun v => some ((fun a : Int => a * a) v)) [1, 100] [1, 100]
          (lanes2 true false) = .done r ∧ r.ret[1]? = ([1, 100] : List Int)[1]? :=
  ⟨by decide, sv_call_f64_unselected_lane 2 (fun a : Int => a * a) [1, 100] [1, 100]
    (lanes2 true false) 2 1 (by decide) rfl rfl (Nat.le_refl 2) rfl⟩

/-- C3: on a per-lane predicate, `sv_call_f64` invokes `f` once per active lane:
the cursors of its iterations are those of a duplicate-free list holding exactly
the active lanes, the arguments handed to `f` are the lanes of `x` at these
indices, and the number of invocations is the number of active lanes. -/
theorem sv_call_f64_calls_once_per_active_lane {α : Type} [Zero α] (W : Nat) (f : α → α)
    (x y : List α) (cmp : svbool_t) (fuel : Nat)
    (hcmp : IsLanePred 8 W cmp) (hx : x.length = W) (hy : y.length = W) (hfuel : W ≤ fuel) :
    ∃ r, sv_call_f64 (8 * W) fuel (fun v => some (f v)) x y cmp = .done r ∧
      ∃ lanes : List Nat, lanes.Nodup ∧
        (∀ i, i ∈ lanes ↔ i < W ∧ ElemPredicate 8 cmp i = true) ∧
        r.calls.map Prod.fst = lanes.map (laneCursor 8 (8 * W)) ∧
        r.calls.map (fun c => some c.2) = lanes.map (fun i => x[i]?) ∧
        r.calls.length = (List.range W).countP (ElemPredicate 8 cmp) := by
  refine ⟨_, sv_call_f64_run f x y cmp hcmp hx hy fuel hfuel, activeLanes cmp W, ?_, ?_, ?_, ?_, ?_⟩
  · exact (List.nodup_range W).filter _
  · exact mem_activeLanes cmp W
  · simp [List.map_map, Function.comp_def]
  · simp only [List.map_map, Function.comp_def]
    apply List.map_congr_left
    intro e he
    exact getD_eq_of_lt x e 0 (by rw [hx]; exact ((mem_activeLanes cmp W e).1 he).1)
  · simp only [List.length_map, List.countP_eq_length_filter]
    rfl

theorem sv_call_f64_calls_once_per_active_lane_witness :
    IsLanePred 8 2 (lanes2 false true) ∧
      ∃ r, sv_call_f64 (8 * 2) 2 (fun v => some ((fun a : Int => a * a) v)) [3, 4] [10, 20]
          (lanes2 false true) = .done r ∧
        ∃ lanes : List Nat, lanes.Nodup ∧
          (∀ i, i ∈ lanes ↔ i < 2 ∧ ElemPredicate 8 (lanes2 false true) i = true) ∧
          r.calls.map Prod.fst = lanes.map (laneCursor 8 (8 * 2)) ∧
          r.calls.map (fun c => some c.2) = lanes.map (fun i => ([3, 4] : List Int)[i]?) ∧
          r.calls.length = (List.range 2).countP (ElemPredicate 8 (lanes2 false true)) :=
  ⟨by decide, sv_call_f64_calls_once_per_active_lane 2 (fun a : Int => a * a) [3, 4] [10, 20]
    (lanes2 false true) 2 (by decide) rfl rfl (Nat.le_refl 2)⟩

/-- C4: when the per-lane predicate has no active lane, `sv_call_f64` returns
`y` unchanged without entering the loop body, for every scalar routine, one
that traps or is absent included, and with no iteration allowed. -/
theorem sv_call_f64_all_false {α : Type} [Zero α] (W : Nat) (f : α → Option α)
    (x y : List α) (cmp : svbool_t) (fuel : Nat)
    (hcmp : IsLanePred 8 W cmp) (hnone : ∀ i, i < W → ElemPredicate 8 cmp i = false) :
    sv_call_f64 (8 * W) fuel f x y cmp = .done ⟨y, []⟩ := by
  have hl : 8 * W = cmp.length := by rw [hcmp.1]; omega
  have hp : svpfirst cmp (svpfalse (8 * W)) = List.replicate cmp.length false := by
    rw [hl, svpfirst_lanePred (by decide) cmp hcmp]
    unfold cursorFrom
    have hno : ¬ pnextScan 8 cmp W (W - 0) 0 < W := by
      intro hlt
      have h1 := pnextScan_active 8 cmp W (W - 0) 0 (Nat.le_refl _) hlt
      rw [hnone _ hlt] at h1
      exact Bool.false_ne_true h1
    simp only [hno, if_false]
  unfold sv_call_f64
  simp only [hp]
  exact sv_call_f64_loop_exit (8 * W) f x cmp cmp.length fuel y

theorem sv_call_f64_all_false_witness :
    IsLanePred 8 2 (lanes2 false false) ∧
      (∀ i, i < 2 → ElemPredicate 8 (lanes2 false false) i = false) ∧
      sv_call_f64 (8 * 2) 0 (fun _ : Int => none) [3, 4] [10, 20] (lanes2 false false) =
        .done ⟨[10, 20], []⟩ :=
  ⟨by decide, by decide, sv_call_f64_all_false 2 (fun _ : Int => none) [3, 4] [10, 20]
    (lanes2 false false) 0 (by decide) (by decide)⟩

/-- C5: on a per-lane predicate of width `W`, the loop of `sv_call_f64` exits
within `W` iterations of its body: a budget of `W` iterations, or any larger
one, lets the call return, the body runs at most `W` times, and every iteration
has the cursor of an active lane that no other iteration has, so the active
lanes still to visit lose one member per iteration. -/
theorem sv_call_f64_terminates_within_width {α : Type} [Zero α] (W : Nat) (f : α → α)
    (x y : List α) (cmp : svbool_t)
    (hcmp : IsLanePred 8 W cmp) (hx : x.length = W) (hy : y.length = W) :
    ∃ r, (∀ fuel, W ≤ fuel →
        sv_call_f64 (8 * W) fuel (fun v => some (f v)) x y cmp = .done r) ∧
      r.calls.length ≤ W ∧
      (r.calls.map Prod.fst).Nodup ∧
      ∀ c ∈ r.calls, ∃ e, e < W ∧ ElemPredicate 8 cmp e = true ∧
        c.1 = laneCursor 8 (8 * W) e := by
  refine ⟨_, fun fuel hfuel => sv_call_f64_run f x y cmp hcmp hx hy fuel hfuel, ?_, ?_, ?_⟩
  · simp only [List.length_map]
    have := List.length_filter_le (ElemPredicate 8 cmp) (List.range W)
    rw [List.length_range] at this
    exact this
  · simp only [List.map_map, Function.comp_def]
    apply List.Nodup.map_on _ ((List.nodup_range W).filter _)
    intro a ha b hb hab
    have ha2 := ((mem_activeLanes cmp W a).1 ha).1
    have hb2 := ((mem_activeLanes cmp W b).1 hb).1
    exact laneCursor_inj (by decide) (by omega) (by omega) hab
  · intro c hc
    simp only [List.mem_map] at hc
    obtain ⟨e, he, rfl⟩ := hc
    have he2 := (mem_activeLanes cmp W e).1 he
    exact ⟨e, he2.1, he2.2, rfl⟩

theorem sv_call_f64_terminates_within_width_witness :
    IsLanePred 8 2 (lanes2 true true) ∧
      ∃ r, (∀ fuel, 2 ≤ fuel →
          sv_call_f64 (8 * 2) fuel (fun v => some ((fun a : Int => a + 1) v)) [3, 4] [10, 20]
            (lanes2 true true) = .done r) ∧
        r.calls.length ≤ 2 ∧
        (r.calls.map Prod.fst).Nodup ∧
        ∀ c ∈ r.calls, ∃ e, e < 2 ∧ ElemPredicate 8 (lanes2 true true) e = true ∧
          c.1 = laneCursor 8 (8 * 2) e :=
  ⟨by decide, sv_call_f64_terminates_within_width 2 (fun a : Int => a + 1) [3, 4] [10, 20]
    (lanes2 true true) (by decide) rfl rfl⟩

/-- C6, refuted as stated: with `x = [1, 2]`, `y = [10, 20]`, lane 0 selected and
`f v = v + 100`, the one argument handed to `f` is `1`, lane 0 of `x`, and the
returned lane 0 is `101`, not `f (y[0]) = 110`. -/
theorem sv_call_f64_argument_not_from_y :
    ElemPredicate 8 (lanes2 true false) 0 = true ∧
      ([10, 20] : List Int)[0]? = some 10 ∧
      sv_call_f64 16 2 (fun v : Int => some (v + 100)) [1, 2] [10, 20] (lanes2 true false) =
        .done ⟨[101, 20], [(laneCursor 8 16 0, 1)]⟩ ∧
      ([101, 20] : List Int)[0]? ≠ some (10 + 100) := by
  decide

/-- C6, amended: on a per-lane predicate, the argument handed to `f` for a
selected lane `i` is lane `i` of the input vector `x`, and the returned lane `i`
is `f (x[i])`. -/
theorem sv_call_f64_argument_from_x {α : Type} [Zero α] (W : Nat) (f : α → α) (x y : List α)
    (cmp : svbool_t) (fuel i : Nat) (a : α)
    (hcmp : IsLanePred 8 W cmp) (hx : x.length = W) (hy : y.length = W) (hfuel : W ≤ fuel)
    (hi : ElemPredicate 8 cmp i = true) (hxi : x[i]? = some a) :
    ∃ r, sv_call_f64 (8 * W) fuel (fun v => some (f v)) x y cmp = .done r ∧
      (laneCursor 8 (8 * W) i, a) ∈ r.calls ∧
      (∀ c ∈ r.calls, c.1 = laneCursor 8 (8 * W) i → c.2 = a) ∧
      r.ret[i]? = some (f a) := by
  have hiW : i < W := by
    rw [← hx]
    by_contra hge
    rw [List.getElem?_eq_none (by omega)] at hxi
    exact Option.noConfusion hxi
  have hmem : i ∈ activeLanes cmp W := (mem_activeLanes cmp W i).2 ⟨hiW, hi⟩
  have hxa : x.getD i 0 = a := getD_of_getElemOpt x i a 0 hxi
  refine ⟨_, sv_call_f64_run f x y cmp hcmp hx hy fuel hfuel, ?_, ?_, ?_⟩
  · simp only [List.mem_map]
    exact ⟨i, hmem, by rw [hxa]⟩
  · intro c hc hci
    simp only [List.mem_map] at hc
    obtain ⟨e, he, rfl⟩ := hc
    have he2 := ((mem_activeLanes cmp W e).1 he).1
    have hei : e = i := laneCursor_inj (by decide) (by omega) (by omega) hci
    subst hei
    exact hxa
  · show (List.foldl _ y (activeLanes cmp W))[i]? = _
    rw [getElemOpt_foldl_set (fun e => f (x.getD e 0)), hxa]
    simp [hmem, hy, hiW]

theorem sv_call_f64_argument_from_x_witness :
    IsLanePred 8 2 (lanes2 true false) ∧
      ∃ r, sv_call_f64 (8 * 2) 2 (fun v => some ((fun a : Int => a + 100) v)) [1, 2] [10, 20]
          (lanes2 true false) = .done r ∧
        (laneCursor 8 (8 * 2) 0, 1) ∈ r.calls ∧
        (∀ c ∈ r.calls, c.1 = laneCursor 8 (8 * 2) 0 → c.2 = 1) ∧
        r.ret[0]? = some ((fun a : Int => a + 100) 1) :=
  ⟨by decide, sv_call_f64_argument_from_x 2 (fun a : Int => a + 100) [1, 2] [10, 20]
    (lanes2 true false) 2 0 1 (by decide) rfl rfl (Nat.le_refl 2) rfl rfl⟩

/-- C7: on a lane that `pg` makes active, `sv_fma_f64_x (pg, x, y, z)` holds
`z + x * y` and `sv_fma_n_f64_x (pg, s, y, z)` holds `z + s * y`, the value
`sv_fma_f64_x (pg, sv_f64 (s), y, z)` has there; likewise for the f32 pair.  The
scalar fused multiply-add `fma a b c = a * b + c` is any operation that is
commutative in its two factors. -/
theorem sv_fma_active_lane {α : Type} (fma : α → α → α → α)
    (hcomm : ∀ a b c, fma a b c = fma b a c) (VB : Nat) (undef : List α) (pg : svbool_t)
    (x y z : List α) (s : α) (i : Nat) (u a b c : α)
    (hu : undef[i]? = some u) (hx : x[i]? = some a) (hy : y[i]? = some b)
    (hz : z[i]? = some c) :
    (ElemPredicate 8 pg i = true →
      (sv_fma_f64_x fma undef pg x y z)[i]? = some (fma a b c) ∧
      (i < VB / 8 →
        (sv_fma_n_f64_x VB fma undef pg s y z)[i]? = some (fma s b c) ∧
        (sv_fma_n_f64_x VB fma undef pg s y z)[i]? =
          (sv_fma_f64_x fma undef pg (sv_f64 VB s) y z)[i]?)) ∧
    (ElemPredicate 4 pg i = true →
      (sv_fma_f32_x fma undef pg x y z)[i]? = some (fma a b c) ∧
      (i < VB / 4 →
        (sv_fma_n_f32_x VB fma undef pg s y z)[i]? = some (fma s b c) ∧
        (sv_fma_n_f32_x VB fma undef pg s y z)[i]? =
          (sv_fma_f32_x fma undef pg (sv_f32 VB s) y z)[i]?)) := by
  constructor
  · intro hact
    refine ⟨getElemOpt_svmla_x_active 8 fma pg undef z x y i u c a b hact hu hz hx hy, ?_⟩
    intro hi
    have hs : (svdup_n_f64 VB s)[i]? = some s := by
      unfold svdup_n_f64
      exact List.getElem?_replicate_of_lt hi
    have h1 : (sv_fma_n_f64_x VB fma undef pg s y z)[i]? = some (fma s b c) := by
      rw [hcomm]
      exact getElemOpt_svmla_x_active 8 fma pg undef z y (svdup_n_f64 VB s) i u c b s hact hu hz
        hy hs
    refine ⟨h1, ?_⟩
    rw [h1]
    exact (getElemOpt_svmla_x_active 8 fma pg undef z (svdup_n_f64 VB s) y i u c s b hact hu hz
      hs hy).symm
  · intro hact
    refine ⟨getElemOpt_svmla_x_active 4 fma pg undef z x y i u c a b hact hu hz hx hy, ?_⟩
    intro hi
    have hs : (svdup_n_f32 VB s)[i]? = some s := by
      unfold svdup_n_f32
      exact List.getElem?_replicate_of_lt hi
    have h1 : (sv_fma_n_f32_x VB fma undef pg s y z)[i]? = some (fma s b c) := by
      rw [hcomm]
      exact getElemOpt_svmla_x_active 4 fma pg undef z y (svdup_n_f32 VB s) i u c b s hact hu hz
        hy hs
    refine ⟨h1, ?_⟩
    rw [h1]
    exact (getElemOpt_svmla_x_active 4 fma pg undef z (svdup_n_f32 VB s) y i u c s b hact hu hz
      hs hy).symm

theorem sv_fma_active_lane_witness :
    ((sv_fma_f64_x (fun a b c : Int => a * b + c) [0, 0, 0, 0] (List.replicate 16 true)
        [2, 3, 1, 1] [4, 5, 1, 1] [6, 7, 1, 1])[1]? = some (3 * 5 + 7) ∧
      (sv_fma_n_f64_x 16 (fun a b c : Int => a * b + c) [0, 0, 0, 0] (List.replicate 16 true)
        9 [4, 5, 1, 1] [6, 7, 1, 1])[1]? = some (9 * 5 + 7)) ∧
    ((sv_fma_f32_x (fun a b c : Int => a * b + c) [0, 0, 0, 0] (List.replicate 16 true)
        [2, 3, 1, 1] [4, 5, 1, 1] [6, 7, 1, 1])[1]? = some (3 * 5 + 7) ∧
      (sv_fma_n_f32_x 16 (fun a b c : Int => a * b + c) [0, 0, 0, 0] (List.replicate 16 true)
        9 [4, 5, 1, 1] [6, 7, 1, 1])[1]? = some (9 * 5 + 7)) :=
  have h := sv_fma_active_lane (fun a b c : Int => a * b + c)
    (fun a b c => show a * b + c = b * a + c by rw [Int.mul_comm]) 16 [0, 0, 0, 0]
    (List.replicate 16 true) [2, 3, 1, 1] [4, 5, 1, 1] [6, 7, 1, 1] 9 1 0 3 5 7 rfl rfl rfl rfl
  ⟨⟨(h.1 rfl).1, ((h.1 rfl).2 (by decide)).1⟩, ⟨(h.2 rfl).1, ((h.2 rfl).2 (by decide)).1⟩⟩

/-- C8: reinterpreting a vector as unsigned integers and back, or as floats and
back, returns the vector with every bit pattern and the lane count unchanged,
at both precisions. -/
theorem sv_as_roundtrip :
    (∀ v : sv_f64_t, sv_as_f64_u64 (sv_as_u64_f64 v) = v ∧
      (sv_as_u64_f64 v).length = v.length ∧
      (sv_as_u64_f64 v).map (fun u => u.bits) = v.map (fun d => d.bits)) ∧
    (∀ u : sv_u64_t, sv_as_u64_f64 (sv_as_f64_u64 u) = u ∧
      (sv_as_f64_u64 u).length = u.length ∧
      (sv_as_f64_u64 u).map (fun d => d.bits) = u.map (fun w => w.bits)) ∧
    (∀ v : sv_f32_t, sv_as_f32_u32 (sv_as_u32_f32 v) = v ∧
      (sv_as_u32_f32 v).length = v.length ∧
      (sv_as_u32_f32 v).map (fun u => u.bits) = v.map (fun d => d.bits)) ∧
    (∀ u : sv_u32_t, sv_as_u32_f32 (sv_as_f32_u32 u) = u ∧
      (sv_as_f32_u32 u).length = u.length ∧
      (sv_as_f32_u32 u).map (fun d => d.bits) = u.map (fun w => w.bits)) := by
  refine ⟨fun v => ⟨?_, ?_, ?_⟩, fun u => ⟨?_, ?_, ?_⟩, fun v => ⟨?_, ?_, ?_⟩,
    fun u => ⟨?_, ?_, ?_⟩⟩ <;>
  simp [sv_as_f64_u64, sv_as_u64_f64, svreinterpret_f64_u64, svreinterpret_u64_f64,
    sv_as_f32_u32, sv_as_u32_f32, svreinterpret_f32_u32, svreinterpret_u32_f32,
    List.map_map, Function.comp_def]

/-- C9: every lane of a broadcast holds the scalar: `sv_f64 (s)`, `sv_u64 (s)` and
`sv_s64 (s)` have `VB / 8` lanes, `sv_f32 (s)`, `sv_u32 (s)` and `sv_s32 (s)` have
`VB / 4` lanes, and each of these lanes is `s`, for a scalar of any type. -/
theorem sv_broadcast_lane {α : Type} (VB : Nat) (s : α) (i : Nat) :
    (sv_f64 VB s)[i]? = (if i < VB / 8 then some s else none) ∧
    (sv_u64 VB s)[i]? = (if i < VB / 8 then some s else none) ∧
    (sv_s64 VB s)[i]? = (if i < VB / 8 then some s else none) ∧
    (sv_f32 VB s)[i]? = (if i < VB / 4 then some s else none) ∧
    (sv_u32 VB s)[i]? = (if i < VB / 4 then some s else none) ∧
    (sv_s32 VB s)[i]? = (if i < VB / 4 then some s else none) := by
  refine ⟨?_, ?_, ?_, ?_, ?_, ?_⟩ <;>
  simp only [sv_f64, sv_u64, sv_s64, sv_f32, sv_u32, sv_s32, svdup_n_f64, svdup_n_u64,
    svdup_n_s64, svdup_n_f32, svdup_n_u32, svdup_n_s32, List.getElem?_replicate]

/-- C10, refuted as stated: with both lanes of a two-lane predicate active the
first iteration extracts lane 0, the lowest active lane, and the second lane 1;
the order is not highest-first. -/
theorem sv_call_f64_not_highest_first :
    sv_call_f64 16 2 (fun v : Int => some (v + 1)) [3, 4] [10, 20] (lanes2 true true) =
        .done ⟨[4, 5], [(laneCursor 8 16 0, 3), (laneCursor 8 16 1, 4)]⟩ ∧
      LastActiveElement 8 (laneCursor 8 16 0) 2 = some 0 ∧
      LastActiveElement 8 (laneCursor 8 16 1) 2 = some 1 ∧
      ElemPredicate 8 (lanes2 true true) 1 = true ∧
      ¬ List.Pairwise (fun a b : Nat => a > b) [0, 1] := by
  decide

/-- C10, amended: on a per-lane predicate, `sv_call_f64` visits the active lanes
lowest first: the lanes its iterations extract, in order, are the active lanes
of `cmp` in strictly ascending index order. -/
theorem sv_call_f64_visits_ascending {α : Type} [Zero α] (W : Nat) (f : α → α)
    (x y : List α) (cmp : svbool_t) (fuel : Nat)
    (hcmp : IsLanePred 8 W cmp) (hx : x.length = W) (hy : y.length = W) (hfuel : W ≤ fuel) :
    ∃ r, sv_call_f64 (8 * W) fuel (fun v => some (f v)) x y cmp = .done r ∧
      r.calls.map (fun c => LastActiveElement 8 c.1 W) =
        ((List.range W).filter (ElemPredicate 8 cmp)).map some ∧
      List.Pairwise (fun a b => a < b) ((List.range W).filter (ElemPredicate 8 cmp)) := by
  refine ⟨_, sv_call_f64_run f x y cmp hcmp hx hy fuel hfuel, ?_, ?_⟩
  · simp only [List.map_map, Function.comp_def]
    apply List.map_congr_left
    intro e he
    have he2 : e < W := ((mem_activeLanes cmp W e).1 he).1
    rw [lastActiveElement_laneCursor (by decide) (by omega)]
    simp [he2]
  · exact (List.pairwise_lt_range W).filter _

theorem sv_call_f64_visits_ascending_witness :
    IsLanePred 8 2 (lanes2 true true) ∧
      ∃ r, sv_call_f64 (8 * 2) 2 (fun v => some ((fun a : Int => a + 1) v)) [3, 4] [10, 20]
          (lanes2 true true) = .done r ∧
        r.calls.map (fun c => LastActiveElement 8 c.1 2) =
          ((List.range 2).filter (ElemPredicate 8 (lanes2 true true))).map some ∧
        List.Pairwise (fun a b => a < b)
          ((List.range 2).filter (ElemPredicate 8 (lanes2 true true))) :=
  ⟨by decide, sv_call_f64_visits_ascending 2 (fun a : Int => a + 1) [3, 4] [10, 20]
    (lanes2 true true) 2 (by decide) rfl rfl (Nat.le_refl 2)⟩

/-! ## The two precisions side by side -/

theorem pnextScan_congr (e1 e2 : Nat) (p1 p2 : svbool_t) (W : Nat)
    (h : ∀ e, e < W → ElemPredicate e1 p1 e = ElemPredicate e2 p2 e) (fuel s : Nat) :
    pnextScan e1 p1 W fuel s = pnextScan e2 p2 W fuel s := by
  induction fuel generalizing s with
  | zero => rfl
  | succ fuel ih =>
    rw [pnextScan, pnextScan]
    by_cases hs : s < W
    · rw [h s hs, ih]
    · simp [hs]

theorem sv_call_loops_agree {α : Type} [Zero α] {W : Nat} (f : α → Option α) (x : List α)
    (c64 c32 : svbool_t) (h64 : IsLanePred 8 W c64) (h32 : IsLanePred 4 W c32)
    (hsame : ∀ e, e < W → ElemPredicate 8 c64 e = ElemPredicate 4 c32 e)
    (hx : x.length = W) (fuel : Nat) :
    ∀ (s : Nat) (y : List α), y.length = W →
      (sv_call_f64_loop (8 * W) f x c64 fuel y (cursorFrom 8 c64 W s)).map (laneView 8 W) =
        (sv_call_f32_loop (4 * W) f x c32 fuel y (cursorFrom 4 c32 W s)).map (laneView 4 W) := by
  have h8 : 0 < 8 := by decide
  have h4 : 0 < 4 := by decide
  induction fuel with
  | zero =>
    intro s y _
    unfold cursorFrom
    rw [pnextScan_congr 8 4 c64 c32 W hsame]
    by_cases hr : pnextScan 4 c32 W (W - s) s < W
    · simp only [hr, if_true]
      have hact : ElemPredicate 4 c32 (pnextScan 4 c32 W (W - s) s) = true :=
        pnextScan_active 4 c32 W (W - s) s (Nat.le_refl _) hr
      have hact8 : ElemPredicate 8 c64 (pnextScan 4 c32 W (W - s) s) = true := by
        rw [hsame _ hr]; exact hact
      have hlt8 : pnextScan 4 c32 W (W - s) s * 8 < c64.length := by rw [h64.1]; omega
      have hlt4 : pnextScan 4 c32 W (W - s) s * 4 < c32.length := by rw [h32.1]; omega
      rw [sv_call_f64_loop, sv_call_f32_loop, svptest_any_laneCursor h8 hlt8,
        svptest_any_laneCursor h4 hlt4, hact, hact8]
      rfl
    · simp only [hr, if_false]
      rw [sv_call_f64_loop_exit, sv_call_f32_loop_exit]
      rfl
  | succ fuel ih =>
    intro s y hy
    unfold cursorFrom
    rw [pnextScan_congr 8 4 c64 c32 W hsame]
    by_cases hr : pnextScan 4 c32 W (W - s) s < W
    · simp only [hr, if_true]
      generalize pnextScan 4 c32 W (W - s) s = r at hr ⊢
      have hlt8 : r * 8 < c64.length := by rw [h64.1]; omega
      have hlt4 : r * 4 < c32.length := by rw [h32.1]; omega
      by_cases hact : ElemPredicate 4 c32 r = true
      · have hact8 : ElemPredicate 8 c64 r = true := by rw [hsame _ hr]; exact hact
        have hd8 : 8 * W / 8 = W := by omega
        have hd4 : 4 * W / 4 = W := by omega
        rw [sv_call_f64_loop, sv_call_f32_loop, svptest_any_laneCursor h8 hlt8,
          svptest_any_laneCursor h4 hlt4, hact, hact8]
        simp only [if_true]
        unfold svclastb_n_f64 svsel_f64 svdup_n_f64 svpnext_b64
        unfold svclastb_n_f32 svsel_f32 svdup_n_f32 svpnext_b32
        rw [svclastb_n_laneCursor h8 hlt8 0 x (by omega),
          svclastb_n_laneCursor h4 hlt4 0 x (by omega), hd8, hd4]
        cases hf : f (x.getD r 0) with
        | none => rfl
        | some v =>
          simp only []
          have hyl : List.replicate W v = List.replicate y.length v := by rw [hy]
          rw [hyl, svsel_laneCursor h8 hlt8, svsel_laneCursor h4 hlt4,
            svpnext_b_laneCursor h8 c64 h64.1 hr, svpnext_b_laneCursor h4 c32 h32.1 hr]
          have hrec := ih (r + 1) (y.set r v) (by rw [List.length_set]; exact hy)
          have hl8 : LastActiveElement 8 (laneCursor 8 c64.length r) W = some r := by
            rw [lastActiveElement_laneCursor h8 hlt8]; simp [hr]
          have hl4 : LastActiveElement 4 (laneCursor 4 c32.length r) W = some r := by
            rw [lastActiveElement_laneCursor h4 hlt4]; simp [hr]
          cases hA : sv_call_f64_loop (8 * W) f x c64 fuel (y.set r v) (cursorFrom 8 c64 W (r + 1)) <;>
          cases hB : sv_call_f32_loop (4 * W) f x c32 fuel (y.set r v) (cursorFrom 4 c32 W (r + 1)) <;>
          rw [hA, hB] at hrec <;>
          simp [Run.map, laneView] at hrec ⊢
          exact ⟨hrec.1, by rw [hl8, hl4], hrec.2⟩
      · have hact4 : ElemPredicate 4 c32 r = false := by simpa using hact
        have hact8 : ElemPredicate 8 c64 r = false := by rw [hsame _ hr]; exact hact4
        rw [sv_call_f64_loop, sv_call_f32_loop, svptest_any_laneCursor h8 hlt8,
          svptest_any_laneCursor h4 hlt4, hact4, hact8]
        rfl
    · simp only [hr, if_false]
      rw [sv_call_f64_loop_exit, sv_call_f32_loop_exit]
      rfl

theorem svpfirst_svpfalse_b64 {W : Nat} (cmp : svbool_t) (hcmp : IsLanePred 8 W cmp) :
    svpfirst cmp (svpfalse (8 * W)) = cursorFrom 8 cmp W 0 := by
  have hl : 8 * W = cmp.length := by rw [hcmp.1]; omega
  rw [hl]
  exact svpfirst_lanePred (by decide) cmp hcmp

theorem svpfirst_svpfalse_b32 {W : Nat} (cmp : svbool_t) (hcmp : IsLanePred 4 W cmp) :
    svpfirst cmp (svpfalse (4 * W)) = cursorFrom 4 cmp W 0 := by
  have hl : 4 * W = cmp.length := by rw [hcmp.1]; omega
  rw [hl]
  exact svpfirst_lanePred (by decide) cmp hcmp

theorem sv_call_agree {α : Type} [Zero α] {W : Nat} (f : α → Option α) (x y : List α)
    (c64 c32 : svbool_t) (fuel : Nat) (h64 : IsLanePred 8 W c64) (h32 : IsLanePred 4 W c32)
    (hsame : ∀ e, e < W → ElemPredicate 8 c64 e = ElemPredicate 4 c32 e)
    (hx : x.length = W) (hy : y.length = W) :
    (sv_call_f64 (8 * W) fuel f x y c64).map (laneView 8 W) =
      (sv_call_f32 (4 * W) fuel f x y c32).map (laneView 4 W) := by
  unfold sv_call_f64 sv_call_f32
  simp only [svpfirst_svpfalse_b64 c64 h64, svpfirst_svpfalse_b32 c32 h32]
  exact sv_call_loops_agree f x c64 c32 h64 h32 hsame hx fuel 0 y hy

/-- C11: `sv_call_f32` and `sv_call_f64` are the same algorithm over a common
lane type.  Given one per-lane predicate written at the 64-bit granule (`c64`)
and at the 32-bit granule (`c32`), the two dispatchers end the same way for
every scalar routine and every iteration budget, with the same returned
vector, the same lanes visited in the same order and the same arguments; and
with a total routine and a budget of at least `W` both return. -/
theorem sv_call_f32_f64_same_algorithm {α : Type} [Zero α] (W : Nat) (f : α → Option α)
    (g : α → α) (x y : List α) (c64 c32 : svbool_t) (fuel : Nat)
    (h64 : IsLanePred 8 W c64) (h32 : IsLanePred 4 W c32)
    (hsame : ∀ e, e < W → ElemPredicate 8 c64 e = ElemPredicate 4 c32 e)
    (hx : x.length = W) (hy : y.length = W) :
    (sv_call_f64 (8 * W) fuel f x y c64).map (laneView 8 W) =
        (sv_call_f32 (4 * W) fuel f x y c32).map (laneView 4 W) ∧
      (W ≤ fuel → ∃ r64 r32,
        sv_call_f64 (8 * W) fuel (fun v => some (g v)) x y c64 = .done r64 ∧
        sv_call_f32 (4 * W) fuel (fun v => some (g v)) x y c32 = .done r32 ∧
        r64.ret = r32.ret ∧
        r64.calls.map (fun c => (LastActiveElement 8 c.1 W, c.2)) =
          r32.calls.map (fun c => (LastActiveElement 4 c.1 W, c.2))) := by
  refine ⟨sv_call_agree f x y c64 c32 fuel h64 h32 hsame hx hy, ?_⟩
  intro hfuel
  have hA := sv_call_f64_spec g x y c64 h64 hx hy fuel hfuel
  have hB := sv_call_f32_spec g x y c32 h32 hx hy fuel hfuel
  have hAB := sv_call_agree (fun v => some (g v)) x y c64 c32 fuel h64 h32 hsame hx hy
  refine ⟨_, _, hA, hB, ?_⟩
  rw [hA, hB] at hAB
  simp only [Run.map, laneView, Run.done.injEq, Prod.mk.injEq] at hAB
  exact hAB

theorem sv_call_f32_f64_same_algorithm_witness :
    IsLanePred 8 2 (lanes2 true true) ∧ IsLanePred 4 2 (lanes2s true true) ∧
      (sv_call_f64 (8 * 2) 1 (fun v : Int => if v = 4 then none else some (v + 1)) [3, 4]
          [10, 20] (lanes2 true true)).map (laneView 8 2) =
        (sv_call_f32 (4 * 2) 1 (fun v : Int => if v = 4 then none else some (v + 1)) [3, 4]
          [10, 20] (lanes2s true true)).map (laneView 4 2) ∧
      ∃ r64 r32,
        sv_call_f64 (8 * 2) 2 (fun v => some ((fun a : Int => a + 1) v)) [3, 4] [10, 20]
          (lanes2 true true) = .done r64 ∧
        sv_call_f32 (4 * 2) 2 (fun v => some ((fun a : Int => a + 1) v)) [3, 4] [10, 20]
          (lanes2s true true) = .done r32 ∧
        r64.ret = r32.ret ∧
        r64.calls.map (fun c => (LastActiveElement 8 c.1 2, c.2)) =
          r32.calls.map (fun c => (LastActiveElement 4 c.1 2, c.2)) :=
  ⟨by decide, by decide,
    (sv_call_f32_f64_same_algorithm 2 (fun v : Int => if v = 4 then none else some (v + 1))
      (fun a : Int => a + 1) [3, 4] [10, 20] (lanes2 true true) (lanes2s true true) 1
      (by decide) (by decide) (by decide) rfl rfl).1,
    (sv_call_f32_f64_same_algorithm 2 (fun v : Int => if v = 4 then none else some (v + 1))
      (fun a : Int => a + 1) [3, 4] [10, 20] (lanes2 true true) (lanes2s true true) 2
      (by decide) (by decide) (by decide) rfl rfl).2 (Nat.le_refl 2)⟩

/-! ## Inactive lanes of the multiply-add -/

theorem getD_laneCursor {esz PL e : Nat} (he : e * esz < PL) (k : Nat) :
    (laneCursor esz PL e).getD k false = decide (k = e * esz) := by
  unfold laneCursor
  rw [List.getD_eq_getElem?_getD, List.getElem?_set]
  by_cases h : e * esz = k
  · subst h
    simp [he]
  · have h2 : ¬ k = e * esz := fun hc => h hc.symm
    simp only [h, if_false, h2, decide_False]
    rw [List.getElem?_replicate]
    split <;> rfl

theorem mem_activeFrom_zero (esz : Nat) (cmp : svbool_t) (W e : Nat) :
    e ∈ activeFrom esz cmp W 0 ↔ e < W ∧ ElemPredicate esz cmp e = true := by
  unfold activeFrom
  rw [List.mem_filter, List.mem_range'_1]
  constructor
  · rintro ⟨⟨-, h⟩, h2⟩
    exact ⟨by omega, h2⟩
  · rintro ⟨h, h2⟩
    exact ⟨⟨Nat.zero_le _, by omega⟩, h2⟩

theorem cursor_entry_facts {α : Type} [Zero α] {esz W e : Nat} (hesz : 0 < esz)
    (cmp : svbool_t) (x : List α) (hlen : cmp.length = W * esz) (hx : x.length = W)
    (he : e < W) :
    (∀ k, (laneCursor esz cmp.length e).getD k false = decide (k = e * esz)) ∧
      x[e]? = some (x.getD e 0) ∧
      ∀ d, svclastb_n esz (laneCursor esz cmp.length e) d x = x.getD e 0 := by
  have hlt : e * esz < cmp.length := by
    rw [hlen]; exact Nat.mul_lt_mul_of_pos_right he hesz
  refine ⟨getD_laneCursor hlt, (getD_eq_of_lt x e 0 (by omega)).symm, ?_⟩
  intro d
  rw [svclastb_n_laneCursor hesz hlt d x (by omega)]
  have h1 := getD_eq_of_lt x e d (by omega)
  have h2 := getD_eq_of_lt x e 0 (by omega)
  exact Option.some.inj (h1.trans h2.symm)

/-- C13: on a per-lane predicate, at every entry to the loop body of `sv_call_f64`
(and of `sv_call_f32`) the cursor has exactly one set flag, the flag of a lane
`e` that is active in `cmp`; the argument handed to `f` is `x[e]`, and the
extraction `svclastb_n (p, d, x)` returns it for every default `d`, so the
default never reaches `f`. -/
theorem sv_call_cursor_single_active_lane {α : Type} [Zero α] (W : Nat) (g : α → α)
    (x y : List α) (c64 c32 : svbool_t) (fuel : Nat)
    (h64 : IsLanePred 8 W c64) (h32 : IsLanePred 4 W c32)
    (hx : x.length = W) (hy : y.length = W) (hfuel : W ≤ fuel) :
    (∃ r, sv_call_f64 (8 * W) fuel (fun v => some (g v)) x y c64 = .done r ∧
      ∀ c ∈ r.calls, ∃ e, e < W ∧ ElemPredicate 8 c64 e = true ∧
        (∀ k, c.1.getD k false = decide (k = e * 8)) ∧
        x[e]? = some c.2 ∧ ∀ d, svclastb_n_f64 c.1 d x = c.2) ∧
    (∃ r, sv_call_f32 (4 * W) fuel (fun v => some (g v)) x y c32 = .done r ∧
      ∀ c ∈ r.calls, ∃ e, e < W ∧ ElemPredicate 4 c32 e = true ∧
        (∀ k, c.1.getD k false = decide (k = e * 4)) ∧
        x[e]? = some c.2 ∧ ∀ d, svclastb_n_f32 c.1 d x = c.2) := by
  constructor
  · refine ⟨_, sv_call_f64_spec g x y c64 h64 hx hy fuel hfuel, ?_⟩
    intro c hc
    simp only [List.mem_map] at hc
    obtain ⟨e, he, rfl⟩ := hc
    have he2 := (mem_activeFrom_zero 8 c64 W e).1 he
    exact ⟨e, he2.1, he2.2, cursor_entry_facts (by decide) c64 x h64.1 hx he2.1⟩
  · refine ⟨_, sv_call_f32_spec g x y c32 h32 hx hy fuel hfuel, ?_⟩
    intro c hc
    simp only [List.mem_map] at hc
    obtain ⟨e, he, rfl⟩ := hc
    have he2 := (mem_activeFrom_zero 4 c32 W e).1 he
    exact ⟨e, he2.1, he2.2, cursor_entry_facts (by decide) c32 x h32.1 hx he2.1⟩

theorem sv_call_cursor_single_active_lane_witness :
    IsLanePred 8 2 (lanes2 false true) ∧ IsLanePred 4 2 (lanes2s true false) ∧
      (∃ r, sv_call_f64 (8 * 2) 2 (fun v => some ((fun a : Int => a + 1) v)) [3, 4] [10, 20]
          (lanes2 false true) = .done r ∧
        ∀ c ∈ r.calls, ∃ e, e < 2 ∧ ElemPredicate 8 (lanes2 false true) e = true ∧
          (∀ k, c.1.getD k false = decide (k = e * 8)) ∧
          ([3, 4] : List Int)[e]? = some c.2 ∧ ∀ d, svclastb_n_f64 c.1 d [3, 4] = c.2) ∧
      (∃ r, sv_call_f32 (4 * 2) 2 (fun v => some ((fun a : Int => a + 1) v)) [3, 4] [10, 20]
          (lanes2s true false) = .done r ∧
        ∀ c ∈ r.calls, ∃ e, e < 2 ∧ ElemPredicate 4 (lanes2s true false) e = true ∧
          (∀ k, c.1.getD k false = decide (k = e * 4)) ∧
          ([3, 4] : List Int)[e]? = some c.2 ∧ ∀ d, svclastb_n_f32 c.1 d [3, 4] = c.2) :=
  ⟨by decide, by decide,
    sv_call_cursor_single_active_lane 2 (fun a : Int => a + 1) [3, 4] [10, 20]
      (lanes2 false true) (lanes2s true false) 2 (by decide) (by decide) rfl rfl
      (Nat.le_refl 2)⟩

/-! ## Chained dispatches -/

theorem length_predOr (p q : svbool_t) (h : p.length = q.length) :
    (predOr p q).length = p.length := by
  unfold predOr
  rw [List.length_zipWith, h, Nat.min_self]

theorem getD_predOr (p q : svbool_t) (h : p.length = q.length) (k : Nat) :
    (predOr p q).getD k false = (p.getD k false || q.getD k false) := by
  induction p generalizing q k with
  | nil =>
    cases q with
    | nil => rfl
    | cons b q => simp at h
  | cons a p ih =>
    cases q with
    | nil => simp at h
    | cons b q =>
      cases k with
      | zero => rfl
      | succ k =>
        have h2 : p.length = q.length := by simpa using h
        have := ih q h2 k
        simpa [predOr] using this

theorem isLanePred_predOr {esz W : Nat} (p q : svbool_t) (hp : IsLanePred esz W p)
    (hq : IsLanePred esz W q) : IsLanePred esz W (predOr p q) := by
  have hlen : p.length = q.length := by rw [hp.1, hq.1]
  refine ⟨by rw [length_predOr p q hlen, hp.1], ?_⟩
  intro k hk hmod
  rw [length_predOr p q hlen] at hk
  rw [getD_predOr p q hlen, hp.2 k hk hmod, hq.2 k (by rw [← hlen]; exact hk) hmod]
  rfl

theorem elemPredicate_predOr {esz W : Nat} (p q : svbool_t) (hp : IsLanePred esz W p)
    (hq : IsLanePred esz W q) (e : Nat) :
    ElemPredicate esz (predOr p q) e = (ElemPredicate esz p e || ElemPredicate esz q e) := by
  unfold ElemPredicate
  exact getD_predOr p q (by rw [hp.1, hq.1]) (e * esz)

theorem getElemOpt_ret {α : Type} [Zero α] (W : Nat) (g : α → α) (x y : List α)
    (cmp : svbool_t) (hy : y.length = W) (i : Nat) :
    ((activeLanes cmp W).foldl (fun acc e => acc.set e (g (x.getD e 0))) y)[i]? =
      if i < W ∧ ElemPredicate 8 cmp i = true then some (g (x.getD i 0)) else y[i]? := by
  rw [getElemOpt_foldl_set (fun e => g (x.getD e 0)), hy]
  by_cases h : i < W ∧ ElemPredicate 8 cmp i = true
  · have hm : i ∈ activeLanes cmp W := (mem_activeLanes cmp W i).2 h
    simp [hm, h.1, h.2]
  · have hm : ¬ i ∈ activeLanes cmp W := fun hc => h ((mem_activeLanes cmp W i).1 hc)
    rw [if_neg h, if_neg (fun hc => hm hc.1)]

/-- C14: for a pure `f` and per-lane predicates `p1`, `p2`, dispatching on `p1`
and then on `p2` over the same `x` returns the vector that one dispatch on
`p1 OR p2` returns; in particular a second dispatch on the same predicate
returns the vector of the first. -/
theorem sv_call_f64_chain_union {α : Type} [Zero α] (W : Nat) (g : α → α) (x y : List α)
    (p1 p2 : svbool_t) (fuel : Nat)
    (h1 : IsLanePred 8 W p1) (h2 : IsLanePred 8 W p2)
    (hx : x.length = W) (hy : y.length = W) (hfuel : W ≤ fuel) :
    ∃ r1 r2 r12 r11,
      sv_call_f64 (8 * W) fuel (fun v => some (g v)) x y p1 = .done r1 ∧
      sv_call_f64 (8 * W) fuel (fun v => some (g v)) x r1.ret p2 = .done r2 ∧
      sv_call_f64 (8 * W) fuel (fun v => some (g v)) x y (predOr p1 p2) = .done r12 ∧
      r2.ret = r12.ret ∧
      sv_call_f64 (8 * W) fuel (fun v => some (g v)) x r1.ret p1 = .done r11 ∧
      r11.ret = r1.ret := by
  have h12 := isLanePred_predOr p1 p2 h1 h2
  have hA := sv_call_f64_run g x y p1 h1 hx hy fuel hfuel
  have hlen : ((activeLanes p1 W).foldl (fun acc e => acc.set e (g (x.getD e 0))) y).length
      = W := by rw [length_foldl_set]; exact hy
  have hB := sv_call_f64_run g x _ p2 h2 hx hlen fuel hfuel
  have hC := sv_call_f64_run g x y (predOr p1 p2) h12 hx hy fuel hfuel
  have hD := sv_call_f64_run g x _ p1 h1 hx hlen fuel hfuel
  refine ⟨_, _, _, _, hA, hB, hC, ?_, hD, ?_⟩
  · apply List.ext_getElem?
    intro i
    show (List.foldl _ _ (activeLanes p2 W))[i]? = (List.foldl _ y (activeLanes _ W))[i]?
    rw [getElemOpt_ret W g x _ p2 hlen, getElemOpt_ret W g x y p1 hy,
      getElemOpt_ret W g x y (predOr p1 p2) hy, elemPredicate_predOr p1 p2 h1 h2]
    by_cases hi : i < W
    · cases ElemPredicate 8 p1 i <;> cases ElemPredicate 8 p2 i <;> simp [hi]
    · simp [hi]
  · apply List.ext_getElem?
    intro i
    show (List.foldl _ _ (activeLanes p1 W))[i]? = (List.foldl _ y (activeLanes p1 W))[i]?
    rw [getElemOpt_ret W g x _ p1 hlen, getElemOpt_ret W g x y p1 hy]
    by_cases hc : i < W ∧ ElemPredicate 8 p1 i = true
    · simp [hc]
    · rw [if_neg hc, if_neg hc]

theorem sv_call_f64_chain_union_witness :
    IsLanePred 8 2 (lanes2 true false) ∧ IsLanePred 8 2 (lanes2 true true) ∧
      ∃ r1 r2 r12 r11,
        sv_call_f64 (8 * 2) 2 (fun v => some ((fun a : Int => a * a) v)) [3, 4] [10, 20]
          (lanes2 true false) = .done r1 ∧
        sv_call_f64 (8 * 2) 2 (fun v => some ((fun a : Int => a * a) v)) [3, 4] r1.ret
          (lanes2 true true) = .done r2 ∧
        sv_call_f64 (8 * 2) 2 (fun v => some ((fun a : Int => a * a) v)) [3, 4] [10, 20]
          (predOr (lanes2 true false) (lanes2 true true)) = .done r12 ∧
        r2.ret = r12.ret ∧
        sv_call_f64 (8 * 2) 2 (fun v => some ((fun a : Int => a * a) v)) [3, 4] r1.ret
          (lanes2 true false) = .done r11 ∧
        r11.ret = r1.ret :=
  ⟨by decide, by decide,
    sv_call_f64_chain_union 2 (fun a : Int => a * a) [3, 4] [10, 20] (lanes2 true false)
      (lanes2 true true) 2 (by decide) (by decide) rfl rfl (Nat.le_refl 2)⟩

end SvMath
